import Mathlib

/-!
Verification of the MCP AI-agent example repository: a shallow embedding of
the agent orchestration loop (trace capture, history truncation, error
propagation), the trace processor, the result aggregator, and the holistic
evaluator's JSON-response handling, together with proofs of the testable
properties stated in the specification.

JavaScript values flowing through the agent (tool inputs/outputs, message
payloads) are modelled by the inductive type `JsonValue`; the JS value
`undefined` (an absent field) is modelled by `Option` at each place where the
code distinguishes it, and JS truthiness by `jsTruthy`.
-/

/-- A JSON-like JavaScript value. Numbers are modelled as rationals. -/
inductive JsonValue where
  | null
  | bool (b : Bool)
  | num (q : ℚ)
  | str (s : String)
  | arr (items : List JsonValue)
  | obj (fields : List (String × JsonValue))
deriving Repr

mutual

def JsonValue.beq : JsonValue → JsonValue → Bool
  | .null, .null => true
  | .bool a, .bool b => a == b
  | .num a, .num b => a == b
  | .str a, .str b => a == b
  | .arr a, .arr b => beqList a b
  | .obj a, .obj b => beqFields a b
  | _, _ => false

def JsonValue.beqList : List JsonValue → List JsonValue → Bool
  | [], [] => true
  | a :: as, b :: bs => a.beq b && beqList as bs
  | _, _ => false

def JsonValue.beqFields : List (String × JsonValue) → List (String × JsonValue) → Bool
  | [], [] => true
  | (k, v) :: as, (k', v') :: bs => k == k' && v.beq v' && beqFields as bs
  | _, _ => false

end

mutual

theorem JsonValue.beq_iff : ∀ a b : JsonValue, a.beq b = true ↔ a = b
  | .null, .null => by simp [beq]
  | .bool a, .bool b => by simp [beq]
  | .num a, .num b => by simp [beq]
  | .str a, .str b => by simp [beq]
  | .arr a, .arr b => by
      simp only [beq, arr.injEq]
      exact beqList_iff a b
  | .obj a, .obj b => by
      simp only [beq, obj.injEq]
      exact beqFields_iff a b
  | .null, .bool _ | .null, .num _ | .null, .str _ | .null, .arr _ | .null, .obj _
  | .bool _, .null | .bool _, .num _ | .bool _, .str _ | .bool _, .arr _ | .bool _, .obj _
  | .num _, .null | .num _, .bool _ | .num _, .str _ | .num _, .arr _ | .num _, .obj _
  | .str _, .null | .str _, .bool _ | .str _, .num _ | .str _, .arr _ | .str _, .obj _
  | .arr _, .null | .arr _, .bool _ | .arr _, .num _ | .arr _, .str _ | .arr _, .obj _
  | .obj _, .null | .obj _, .bool _ | .obj _, .num _ | .obj _, .str _ | .obj _, .arr _ => by
      simp [beq]

theorem JsonValue.beqList_iff : ∀ a b : List JsonValue, JsonValue.beqList a b = true ↔ a = b
  | [], [] => by simp [beqList]
  | a :: as, b :: bs => by
      simp only [beqList, Bool.and_eq_true, List.cons.injEq]
      exact and_congr (beq_iff a b) (beqList_iff as bs)
  | [], _ :: _ => by simp [beqList]
  | _ :: _, [] => by simp [beqList]

theorem JsonValue.beqFields_iff :
    ∀ a b : List (String × JsonValue), JsonValue.beqFields a b = true ↔ a = b
  | [], [] => by simp [beqFields]
  | (k, v) :: as, (k', v') :: bs => by
      simp only [beqFields, Bool.and_eq_true, List.cons.injEq, Prod.mk.injEq, beq_iff_eq,
        beq_iff v v', beqFields_iff as bs]
  | [], _ :: _ => by simp [beqFields]
  | _ :: _, [] => by simp [beqFields]

end

instance : DecidableEq JsonValue := fun a b =>
  decidable_of_iff (a.beq b = true) (JsonValue.beq_iff a b)

/-- JavaScript truthiness of a `JsonValue` (`null`, `false`, `0` and `""` are
falsy; arrays and objects, empty or not, are truthy). -/
def jsTruthy : JsonValue → Bool
  | .null => false
  | .bool b => b
  | .num q => q != 0
  | .str s => s != ""
  | .arr _ => true
  | .obj _ => true

/-- JavaScript property access `v[key]` on a parsed JSON value: `none` models
`undefined` (non-objects have no such property; for duplicate keys the last
occurrence wins, as in objects built by `JSON.parse`). -/
def jsGet (v : JsonValue) (key : String) : Option JsonValue :=
  match v with
  | .obj fields => fields.foldl (fun acc kv => if kv.1 = key then some kv.2 else acc) none
  | _ => none

/-- Truthiness of a possibly-absent value (`undefined` is falsy). -/
def jsTruthyOpt : Option JsonValue → Bool
  | some v => jsTruthy v
  | none => false

/-! ### helpers.ts: TOKEN_OPTIMIZATION configuration -/

def MAX_TOOL_RESULT_LENGTH : Nat := 1000

def TRUNCATION_SUFFIX : String := "\n\n[...content truncated for efficiency]"

def TOOLS_TO_TRUNCATE : List String := ["queryVCData"]

/-! ### agent.ts: message history and the tool-result truncator

A conversation message has a role and content that is plain text, an array of
tool parts, or some other value.  A tool part carries the tool name (possibly
absent), the `result` payload, and any further properties (preserved verbatim
by the object spread in the source). -/

structure ToolPart where
  toolName : Option String
  result : JsonValue
  extra : List (String × JsonValue)
deriving DecidableEq, Repr

inductive MessageContent where
  | text (s : String)
  | parts (ps : List ToolPart)
  | value (v : JsonValue)
deriving DecidableEq, Repr

structure Message where
  role : String
  content : MessageContent
deriving DecidableEq, Repr

/-- `truncateString` from `AIAgent.truncateHistory`: strings longer than the
ceiling are cut to the ceiling length and the truncation marker is appended. -/
def truncateString (str : String) : String :=
  if str.length > MAX_TOOL_RESULT_LENGTH then
    str.take MAX_TOOL_RESULT_LENGTH ++ TRUNCATION_SUFFIX
  else str

mutual

/-- `truncateDeep` from `AIAgent.truncateHistory`: recursively truncate every
string value inside an object/array structure; other leaves pass through. -/
def truncateDeep : JsonValue → JsonValue
  | .str s => .str (truncateString s)
  | .arr items => .arr (truncateDeepList items)
  | .obj fields => .obj (truncateDeepFields fields)
  | .null => .null
  | .bool b => .bool b
  | .num q => .num q

def truncateDeepList : List JsonValue → List JsonValue
  | [] => []
  | v :: vs => truncateDeep v :: truncateDeepList vs

def truncateDeepFields : List (String × JsonValue) → List (String × JsonValue)
  | [] => []
  | (k, v) :: fs => (k, truncateDeep v) :: truncateDeepFields fs

end

/-- Per-part body of the map in `AIAgent.truncateHistory`: a part is truncated
only when its tool name (`part.toolName || ''`) is in `TOOLS_TO_TRUNCATE`; the
spread keeps every other property. -/
def truncatePart (part : ToolPart) : ToolPart :=
  let toolName := part.toolName.getD ""
  if TOOLS_TO_TRUNCATE.contains toolName then
    { part with result := truncateDeep part.result }
  else part

/-- Per-message body of the map in `AIAgent.truncateHistory`: only `tool`-role
messages whose content is an array are processed. -/
def truncateMessage (msg : Message) : Message :=
  if msg.role = "tool" then
    match msg.content with
    | .parts ps => { msg with content := .parts (ps.map truncatePart) }
    | _ => msg
  else msg

/-- `AIAgent.truncateHistory` (agent.ts): rewrite the whole message history. -/
def truncateHistory (messages : List Message) : List Message :=
  messages.map truncateMessage

/-! ### agent.ts: trace capture inside `AIAgent.chat`

A raw reasoning step as reported by the external reasoning session; both the
`toolCalls` and `toolResults` arrays may be absent, and each reported tool
result may lack its `input` (resolved input) or `output` field. -/

structure RawToolCall where
  toolName : String
  args : JsonValue
deriving DecidableEq, Repr

structure RawToolResult where
  input : Option JsonValue
  output : Option JsonValue
deriving DecidableEq, Repr

structure RawStep where
  toolCalls : Option (List RawToolCall)
  toolResults : Option (List RawToolResult)
deriving DecidableEq, Repr

/-- One captured Tool Call Record (`{toolName, input, output, stepNumber}`). -/
structure ToolCallRecord where
  toolName : String
  input : JsonValue
  output : JsonValue
  stepNumber : Nat
deriving DecidableEq, Repr

/-- JavaScript `o || fallback` on a possibly-absent value: keep `o`'s value
only when it is present and truthy. -/
def jsOrElse (o : Option JsonValue) (fallback : JsonValue) : JsonValue :=
  match o with
  | some v => if jsTruthy v then v else fallback
  | none => fallback

/-- The filter predicate `step.toolCalls && step.toolCalls.length > 0`. -/
def hasToolCalls (step : RawStep) : Bool :=
  match step.toolCalls with
  | some calls => decide (calls.length > 0)
  | none => false

/-- `step.toolResults?.[callIndex]`. -/
def toolResultAt (step : RawStep) (callIndex : Nat) : Option RawToolResult :=
  step.toolResults.bind (fun rs => rs[callIndex]?)

/-- Records produced from one (filtered) step: for each call, input is
`toolResult?.input || call.args`, output is `toolResult?.output || null`, and
`stepNumber` is `stepIndex + 1` for the given (filtered) step index. -/
def stepRecords (step : RawStep) (stepIndex : Nat) : List ToolCallRecord :=
  (step.toolCalls.getD []).enum.map (fun ic =>
    let toolResult := toolResultAt step ic.1
    { toolName := ic.2.toolName
      input := jsOrElse (toolResult.bind RawToolResult.input) ic.2.args
      output := jsOrElse (toolResult.bind RawToolResult.output) JsonValue.null
      stepNumber := stepIndex + 1 })

/-- The `currentTrace` computation in `AIAgent.chat`: filter the steps that
carry tool calls, then flatten each step's records in order (an absent or
empty step list yields the empty trace, exactly as the guarded loop does). -/
def captureTrace (steps : List RawStep) : List ToolCallRecord :=
  ((steps.filter hasToolCalls).enum.map (fun istep => stepRecords istep.2 istep.1)).flatten

/-! ### agent.ts: the `chat` operation

The external reasoning session (`this.agent.generate`) is modelled as a
parameter: either a structured result or a thrown exception.  `chat` is the
only mutator here; it returns the updated durable state together with the
returned answer text or the propagated exception.  The verbose logging path
is purely observational and is not modelled. -/

structure GenerateResult where
  steps : Option (List RawStep)
  responseMessages : List Message
  text : String

structure AgentState where
  agentReady : Bool
  messages : List Message
  trace : List (List ToolCallRecord)

/-- `AIAgent.chat`: append the user message, invoke the reasoning session,
capture the turn trace, append the response messages, truncate history, and
return the answer text; a thrown generate error is re-thrown after the user
message was already appended. -/
def chat (st : AgentState) (userMessage : String) (gen : Except String GenerateResult) :
    AgentState × Except String String :=
  if !st.agentReady then
    (st, .error "Agent not initialized. Call initialize() first.")
  else
    let st1 := { st with messages := st.messages ++ [{ role := "user", content := .text userMessage }] }
    match gen with
    | .error e => (st1, .error e)
    | .ok result =>
      let currentTrace := captureTrace (result.steps.getD [])
      let st2 := { st1 with trace := st1.trace ++ [currentTrace] }
      let st3 := { st2 with messages := st2.messages ++ result.responseMessages }
      let st4 := { st3 with messages := truncateHistory st3.messages }
      (st4, .ok result.text)

/-! ### test runner (agent.ts tail): trace processing -/

/-- `CONTEXT_TOOLS`: context tools that do not count toward call limits. -/
def CONTEXT_TOOLS : List String :=
  ["getDatasetContext", "listDatasetTables", "getTableDetails"]

/-- Processed tool call record (`ToolCallRecord` interface of the test
runner); the wall-clock `timestamp` string is not modelled. -/
structure ProcessedToolCallRecord where
  toolName : String
  success : Bool
  error : Option String
  isContextTool : Bool
deriving DecidableEq, Repr

structure ProcessedTrace where
  toolCalls : List ProcessedToolCallRecord
  sqlQueries : List JsonValue
deriving DecidableEq, Repr

/-- The record built for one trace entry inside `processAgentTrace`
(classification is by name membership in `CONTEXT_TOOLS` only; in this
embedding a captured output is never `undefined`, so the JS test
`output !== null && output !== undefined` is `output ≠ null`). -/
def classifyRecord (toolCall : ToolCallRecord) : ProcessedToolCallRecord :=
  { toolName := toolCall.toolName
    success := toolCall.output != JsonValue.null
    error := if toolCall.output == JsonValue.null then some "No output" else none
    isContextTool := CONTEXT_TOOLS.contains toolCall.toolName }

/-- The conditional SQL extraction inside `processAgentTrace`'s loop:
a work call named `queryVCData` whose input has a truthy `sql` field
contributes that field's value. -/
def sqlOf (toolCall : ToolCallRecord) : Option JsonValue :=
  if !(CONTEXT_TOOLS.contains toolCall.toolName) && toolCall.toolName == "queryVCData"
      && jsTruthyOpt (jsGet toolCall.input "sql") then
    jsGet toolCall.input "sql"
  else none

/-- `processAgentTrace` (test runner): one pass over the agent trace collects
every record and, in the same order, the extracted SQL payloads. -/
def processAgentTrace (agentTrace : List ToolCallRecord) : ProcessedTrace :=
  { toolCalls := agentTrace.map classifyRecord
    sqlQueries := agentTrace.filterMap sqlOf }

/-- `workToolCalls` in `runTestCase`: the non-context records. -/
def workToolCalls (agentTrace : List ToolCallRecord) : List ProcessedToolCallRecord :=
  (processAgentTrace agentTrace).toolCalls.filter (fun tc => !tc.isContextTool)

/-- `totalToolCalls` in `runTestCase`: the count compared against the budget. -/
def totalToolCalls (agentTrace : List ToolCallRecord) : Nat :=
  (workToolCalls agentTrace).length

/-! ### result-writer.ts: aggregation -/

inductive Grade where
  | pass
  | fail
deriving DecidableEq, Repr

/-- `UnifiedTestResult` (tests/helpers/types.ts). -/
structure UnifiedTestResult where
  test_id : Int
  question : String
  grade : Grade
  reasoning : String
  tools_called_num : Int
  tools_called_expected : Int
  answer : String
  expected_answer : String
  sql_queries : List String
  expected_path : String
deriving DecidableEq, Repr

/-- `TestMetadata`; the wall-clock `timestamp` field is not modelled. -/
structure TestMetadata where
  total_tests : Nat
  passed : Nat
  failed : Nat
  pass_rate : ℚ
deriving DecidableEq, Repr

structure UnifiedResultOutput where
  metadata : TestMetadata
  tests : List UnifiedTestResult
deriving DecidableEq, Repr

/-- `buildUnifiedResults` (result-writer.ts). -/
def buildUnifiedResults (results : List UnifiedTestResult) : UnifiedResultOutput :=
  let total := results.length
  let passed := (results.filter (fun r => decide (r.grade = Grade.pass))).length
  let failed := (results.filter (fun r => decide (r.grade = Grade.fail))).length
  let passRate : ℚ := if total > 0 then ((passed : ℚ) / (total : ℚ)) * 100 else 0
  { metadata := { total_tests := total, passed := passed, failed := failed, pass_rate := passRate }
    tests := results }

/-! ### holistic-evaluator.ts: fence stripping and JSON handling

`extractJSON` applies the first match of the regular expression
that captures, lazily, the content between a pair of code fences, skipping an
optional `json` tag and surrounding whitespace, and trims the capture;
with no fenced block it trims the raw text.  Since the capture is trimmed,
the leading `(?:json)?\s*\n?` and the trailing `\n?` only ever remove
whitespace that trimming would remove as well, so the extraction reduces to:
take the text between the first pair of fences (after an optional literal
`json` tag) and trim it. -/

def fenceChar : Char := Char.ofNat 96

/-- JavaScript `String.prototype.trim`, on the character list (the rarer
Unicode space classes are omitted). -/
def isTrimWs (c : Char) : Bool :=
  c == ' ' || c == '\t' || c == '\n' || c == '\r' || c == '\x0b' || c == '\x0c'

def jsTrim (s : String) : String :=
  String.mk (((s.toList.dropWhile isTrimWs).reverse.dropWhile isTrimWs).reverse)

/-- Split a character list at the first three-backtick fence, returning the
text before it and the text after it. -/
def splitFence : List Char → Option (List Char × List Char)
  | [] => none
  | c :: rest =>
    if c == fenceChar && rest.take 2 == [fenceChar, fenceChar] then
      some ([], rest.drop 2)
    else
      (splitFence rest).map (fun p => (c :: p.1, p.2))

/-- `extractJSON` (holistic-evaluator.ts). -/
def extractJSON (text : String) : String :=
  match splitFence text.toList with
  | none => jsTrim text
  | some (_, afterOpen) =>
    let body :=
      match afterOpen with
      | 'j' :: 's' :: 'o' :: 'n' :: rest => rest
      | _ => afterOpen
    match splitFence body with
    | none => jsTrim text
    | some (inner, _) => jsTrim (String.mk inner)

/-! `JSON.parse` is modelled by a fuel-indexed recursive-descent parser for the
JSON grammar (`none` models a thrown `SyntaxError`).  Lone surrogates in
`\u` escapes, which Lean's `Char` cannot hold, map to the null character. -/

def isJsonWs (c : Char) : Bool :=
  c == ' ' || c == '\t' || c == '\n' || c == '\r'

def skipWs (l : List Char) : List Char :=
  l.dropWhile isJsonWs

def hexDigitVal (c : Char) : Option Nat :=
  if c.isDigit then some (c.toNat - 48)
  else if 'a' ≤ c && c ≤ 'f' then some (c.toNat - 87)
  else if 'A' ≤ c && c ≤ 'F' then some (c.toNat - 55)
  else none

def consRes (c : Char) (res : Option (List Char × List Char)) :
    Option (List Char × List Char) :=
  res.map (fun p => (c :: p.1, p.2))

/-- Parse the remainder of a JSON string literal (after the opening quote),
returning its characters and the input after the closing quote. -/
def pStringBody : List Char → Option (List Char × List Char)
  | [] => none
  | '"' :: rest => some ([], rest)
  | '\\' :: esc =>
    match esc with
    | '"' :: rest => consRes '"' (pStringBody rest)
    | '\\' :: rest => consRes '\\' (pStringBody rest)
    | '/' :: rest => consRes '/' (pStringBody rest)
    | 'b' :: rest => consRes '\x08' (pStringBody rest)
    | 'f' :: rest => consRes '\x0C' (pStringBody rest)
    | 'n' :: rest => consRes '\n' (pStringBody rest)
    | 'r' :: rest => consRes '\r' (pStringBody rest)
    | 't' :: rest => consRes '\t' (pStringBody rest)
    | 'u' :: h1 :: h2 :: h3 :: h4 :: rest =>
      match hexDigitVal h1, hexDigitVal h2, hexDigitVal h3, hexDigitVal h4 with
      | some a, some b, some c, some d =>
        consRes (Char.ofNat (4096 * a + 256 * b + 16 * c + d)) (pStringBody rest)
      | _, _, _, _ => none
    | _ => none
  | c :: rest =>
    if c.toNat < 32 then none else consRes c (pStringBody rest)

def digitsVal (ds : List Char) : Nat :=
  ds.foldl (fun acc c => 10 * acc + (c.toNat - 48)) 0

/-- Parse the fractional part: optional `.` followed by at least one digit. -/
def pFrac (l : List Char) : Option (List Char × List Char) :=
  match l with
  | '.' :: rest =>
    let fds := rest.takeWhile Char.isDigit
    if fds.isEmpty then none else some (fds, rest.dropWhile Char.isDigit)
  | _ => some ([], l)

/-- Parse the exponent part: optional `e`/`E`, optional sign, digits. -/
def pExp (l : List Char) : Option (Int × List Char) :=
  match l with
  | 'e' :: rest | 'E' :: rest =>
    let (sign, rest1) :=
      match rest with
      | '+' :: r => ((1 : Int), r)
      | '-' :: r => ((-1 : Int), r)
      | _ => ((1 : Int), rest)
    let eds := rest1.takeWhile Char.isDigit
    if eds.isEmpty then none
    else some (sign * (digitsVal eds : Int), rest1.dropWhile Char.isDigit)
  | _ => some ((0 : Int), l)

def tenPow (e : Int) : ℚ :=
  if 0 ≤ e then ((10 : ℚ) ^ e.toNat) else 1 / ((10 : ℚ) ^ (-e).toNat)

/-- Parse a JSON number (sign, integer part without leading zeros, optional
fraction, optional exponent). -/
def pNum (l : List Char) : Option (ℚ × List Char) :=
  let (neg, l1) :=
    match l with
    | '-' :: rest => (true, rest)
    | _ => (false, l)
  let ids := l1.takeWhile Char.isDigit
  if ids.isEmpty then none
  else if ids.length > 1 && ids.headD '0' == '0' then none
  else
    let l2 := l1.dropWhile Char.isDigit
    match pFrac l2 with
    | none => none
    | some (fds, l3) =>
      match pExp l3 with
      | none => none
      | some (e, l4) =>
        let mantissa : ℚ := (digitsVal ids : ℚ) + (digitsVal fds : ℚ) / tenPow (fds.length : Int)
        let value := (if neg then -mantissa else mantissa) * tenPow e
        some (value, l4)

def lbrace : Char := Char.ofNat 123

def rbrace : Char := Char.ofNat 125

mutual

/-- Parse one JSON value (fuel-indexed; `parseJson` supplies ample fuel). -/
def pVal : Nat → List Char → Option (JsonValue × List Char)
  | 0, _ => none
  | fuel + 1, input =>
    match skipWs input with
    | 'n' :: 'u' :: 'l' :: 'l' :: rest => some (.null, rest)
    | 't' :: 'r' :: 'u' :: 'e' :: rest => some (.bool true, rest)
    | 'f' :: 'a' :: 'l' :: 's' :: 'e' :: rest => some (.bool false, rest)
    | '"' :: rest => (pStringBody rest).map (fun p => (.str (String.mk p.1), p.2))
    | '[' :: rest =>
      (match skipWs rest with
       | ']' :: rest1 => some (.arr [], rest1)
       | rest1 => pElems fuel rest1 [])
    | c :: rest =>
      if c == lbrace then
        (match skipWs rest with
         | c1 :: rest1 =>
           if c1 == rbrace then some (.obj [], rest1)
           else pMembers fuel (c1 :: rest1) []
         | [] => none)
      else (pNum (c :: rest)).map (fun p => (.num p.1, p.2))
    | [] => none

/-- Parse the elements of a non-empty JSON array, accumulating in order. -/
def pElems : Nat → List Char → List JsonValue → Option (JsonValue × List Char)
  | 0, _, _ => none
  | fuel + 1, input, acc =>
    match pVal fuel input with
    | none => none
    | some (v, rest) =>
      match skipWs rest with
      | ',' :: rest1 => pElems fuel rest1 (acc ++ [v])
      | ']' :: rest1 => some (.arr (acc ++ [v]), rest1)
      | _ => none

/-- Parse the members of a non-empty JSON object, accumulating in order. -/
def pMembers : Nat → List Char → List (String × JsonValue) →
    Option (JsonValue × List Char)
  | 0, _, _ => none
  | fuel + 1, input, acc =>
    match skipWs input with
    | '"' :: rest =>
      (match pStringBody rest with
       | none => none
       | some (key, rest1) =>
         match skipWs rest1 with
         | ':' :: rest2 =>
           (match pVal fuel rest2 with
            | none => none
            | some (v, rest3) =>
              match skipWs rest3 with
              | ',' :: rest4 => pMembers fuel rest4 (acc ++ [(String.mk key, v)])
              | c :: rest4 =>
                if c == rbrace then some (.obj (acc ++ [(String.mk key, v)]), rest4)
                else none
              | [] => none)
         | _ => none)
    | _ => none

end

/-- `JSON.parse`: parse a complete JSON document, rejecting trailing input. -/
def parseJson (s : String) : Option JsonValue :=
  match pVal (2 * s.length + 4) s.toList with
  | some (v, rest) => if (skipWs rest).isEmpty then some v else none
  | none => none

/-! ### holistic-evaluator.ts: `evaluateHolistically`

The judge model is external: its textual reply is a parameter.  The rubric
prompt built from the test-case parameters is pure data handed to the judge
and plays no part in the value returned, so its text is not reproduced here.
`Except.error` models a thrown exception (`JSON.parse` throwing on invalid
input, or the property access `evaluation.grade` throwing on `null`). -/

structure EvalParams where
  question : String
  expectedPathDescription : String
  expectedAnswer : String
  maxToolCalls : Int
  actualAnswer : String
  toolCallsUsed : Int
  toolCallNames : List String
  sqlQueries : List String
deriving Repr

/-- The value returned by `evaluateHolistically`: the `grade` and `reasoning`
properties read off the parsed judge reply (absent when the parsed value has
no such property). -/
structure HolisticEvaluation where
  grade : Option JsonValue
  reasoning : Option JsonValue
deriving DecidableEq, Repr

/-- `evaluateHolistically` (holistic-evaluator.ts), as a function of the
judge model's textual reply. -/
def evaluateHolistically (params : EvalParams) (judgeText : String) :
    Except String HolisticEvaluation :=
  let cleanJSON := extractJSON judgeText
  match parseJson cleanJSON with
  | none => .error "SyntaxError: Unexpected token in JSON"
  | some .null => .error "TypeError: Cannot read properties of null"
  | some evaluation =>
    .ok { grade := jsGet evaluation "grade", reasoning := jsGet evaluation "reasoning" }

/-! ### Lemmas about the truncator -/

theorem string_length_eq_data (s : String) : s.length = s.data.length := rfl

theorem truncateString_of_le (s : String) (h : s.length ≤ MAX_TOOL_RESULT_LENGTH) :
    truncateString s = s := by
  simp only [truncateString, if_neg (by omega : ¬ s.length > MAX_TOOL_RESULT_LENGTH)]

theorem truncateString_of_gt (s : String) (h : s.length > MAX_TOOL_RESULT_LENGTH) :
    truncateString s = s.take MAX_TOOL_RESULT_LENGTH ++ TRUNCATION_SUFFIX := by
  simp only [truncateString, if_pos h]

theorem truncation_suffix_length : TRUNCATION_SUFFIX.length = 39 := rfl

theorem truncated_form_length (s : String) (h : s.length > MAX_TOOL_RESULT_LENGTH) :
    (s.take MAX_TOOL_RESULT_LENGTH ++ TRUNCATION_SUFFIX).length
      = MAX_TOOL_RESULT_LENGTH + 39 := by
  rw [string_length_eq_data, String.data_append, List.length_append, String.data_take,
    List.length_take]
  have h39 : TRUNCATION_SUFFIX.data.length = 39 := truncation_suffix_length
  rw [string_length_eq_data] at h
  omega

theorem truncateString_idem (s : String) :
    truncateString (truncateString s) = truncateString s := by
  by_cases h : s.length > MAX_TOOL_RESULT_LENGTH
  · have e1 := truncateString_of_gt s h
    have h2 : (s.take MAX_TOOL_RESULT_LENGTH ++ TRUNCATION_SUFFIX).length
        > MAX_TOOL_RESULT_LENGTH := by
      have ht := truncated_form_length s h
      omega
    rw [e1, truncateString_of_gt _ h2]
    have e2 : (s.take MAX_TOOL_RESULT_LENGTH ++ TRUNCATION_SUFFIX).take MAX_TOOL_RESULT_LENGTH
        = s.take MAX_TOOL_RESULT_LENGTH := by
      apply String.ext
      rw [String.data_take, String.data_append, String.data_take]
      rw [List.take_append_of_le_length, List.take_take, Nat.min_self]
      rw [List.length_take]
      rw [string_length_eq_data] at h
      omega
    rw [e2]
  · have e1 := truncateString_of_le s (by omega)
    rw [e1, e1]

mutual

theorem truncateDeep_idem : ∀ v : JsonValue, truncateDeep (truncateDeep v) = truncateDeep v
  | .null => rfl
  | .bool _ => rfl
  | .num _ => rfl
  | .str s => by simp only [truncateDeep, truncateString_idem s]
  | .arr items => by simp only [truncateDeep, truncateDeepList_idem items]
  | .obj fields => by simp only [truncateDeep, truncateDeepFields_idem fields]

theorem truncateDeepList_idem :
    ∀ l : List JsonValue, truncateDeepList (truncateDeepList l) = truncateDeepList l
  | [] => rfl
  | v :: vs => by
      simp only [truncateDeepList, truncateDeep_idem v, truncateDeepList_idem vs]

theorem truncateDeepFields_idem :
    ∀ l : List (String × JsonValue),
      truncateDeepFields (truncateDeepFields l) = truncateDeepFields l
  | [] => rfl
  | (k, v) :: fs => by
      simp only [truncateDeepFields, truncateDeep_idem v, truncateDeepFields_idem fs]

end

theorem truncatePart_eq (part : ToolPart) :
    truncatePart part =
      if TOOLS_TO_TRUNCATE.contains (part.toolName.getD "") then
        { part with result := truncateDeep part.result }
      else part := rfl

theorem truncatePart_toolName (part : ToolPart) : (truncatePart part).toolName = part.toolName := by
  rw [truncatePart_eq]
  split <;> rfl

theorem truncatePart_idem (part : ToolPart) :
    truncatePart (truncatePart part) = truncatePart part := by
  rw [truncatePart_eq (truncatePart part), truncatePart_toolName]
  by_cases h : TOOLS_TO_TRUNCATE.contains (part.toolName.getD "") = true
  · rw [if_pos h, truncatePart_eq part, if_pos h]
    simp [truncateDeep_idem]
  · rw [if_neg h]

theorem truncateMessage_tool_parts (ps : List ToolPart) :
    truncateMessage ⟨"tool", .parts ps⟩ = ⟨"tool", .parts (ps.map truncatePart)⟩ := by
  simp [truncateMessage]

theorem truncateMessage_role (msg : Message) : (truncateMessage msg).role = msg.role := by
  unfold truncateMessage
  split
  · split <;> rfl
  · rfl

theorem truncateMessage_idem (msg : Message) :
    truncateMessage (truncateMessage msg) = truncateMessage msg := by
  obtain ⟨role, content⟩ := msg
  by_cases h : role = "tool"
  · subst h
    cases content with
    | text s => simp [truncateMessage]
    | value v => simp [truncateMessage]
    | parts ps =>
      rw [truncateMessage_tool_parts, truncateMessage_tool_parts]
      congr 1
      congr 1
      rw [List.map_map]
      apply List.map_congr_left
      intro p _
      simp only [Function.comp_apply]
      exact truncatePart_idem p
  · simp [truncateMessage, h]

/-! ### Claim C2: idempotence of the tool-result truncator -/

/-- Claim C2: applying the Tool Result Truncator to a message history twice
yields exactly the same history as applying it once; strings at or under the
ceiling are unchanged, and a string already truncated to the ceiling length
plus the truncation suffix is mapped to itself by a second application. -/
theorem truncateHistory_idempotent :
    (∀ messages : List Message, truncateHistory (truncateHistory messages)
        = truncateHistory messages) ∧
    (∀ s : String, s.length ≤ MAX_TOOL_RESULT_LENGTH → truncateString s = s) ∧
    (∀ s : String, s.length > MAX_TOOL_RESULT_LENGTH →
      truncateString s = s.take MAX_TOOL_RESULT_LENGTH ++ TRUNCATION_SUFFIX ∧
      truncateString (s.take MAX_TOOL_RESULT_LENGTH ++ TRUNCATION_SUFFIX)
        = s.take MAX_TOOL_RESULT_LENGTH ++ TRUNCATION_SUFFIX) := by
  refine ⟨fun messages => ?_, truncateString_of_le, fun s h => ⟨truncateString_of_gt s h, ?_⟩⟩
  · unfold truncateHistory
    rw [List.map_map]
    apply List.map_congr_left
    intro msg _
    simp only [Function.comp_apply]
    exact truncateMessage_idem msg
  · have h1 := truncateString_idem s
    rw [truncateString_of_gt s h] at h1
    exact h1

/-- Witness for C2 at concrete inputs: a small history and a short string. -/
theorem truncateHistory_idempotent_witness :
    truncateHistory (truncateHistory [⟨"user", .text "hi"⟩])
        = truncateHistory [⟨"user", .text "hi"⟩] ∧
    ("short" : String).length ≤ MAX_TOOL_RESULT_LENGTH ∧ truncateString "short" = "short" :=
  ⟨truncateHistory_idempotent.1 [⟨"user", .text "hi"⟩], by decide,
    truncateHistory_idempotent.2.1 "short" (by decide)⟩

/-! ### Claim C10: frame property of the tool-result truncator -/

/-- Claim C10: the Tool Result Truncator leaves every non-`tool`-role message
unchanged (positionally), leaves every content part whose tool name is not in
the truncation set unchanged inside rewritten `tool` messages, and passes
non-string, non-container leaves through `truncateDeep` unchanged. -/
theorem truncateHistory_frame :
    (∀ (messages : List Message) (i : Nat) (msg : Message), messages[i]? = some msg →
      msg.role ≠ "tool" → (truncateHistory messages)[i]? = some msg) ∧
    (∀ part : ToolPart, part.toolName.getD "" ∉ TOOLS_TO_TRUNCATE → truncatePart part = part) ∧
    (∀ (messages : List Message) (i : Nat) (ps : List ToolPart) (j : Nat) (part : ToolPart),
      messages[i]? = some ⟨"tool", .parts ps⟩ → ps[j]? = some part →
      part.toolName.getD "" ∉ TOOLS_TO_TRUNCATE →
      (truncateHistory messages)[i]? = some ⟨"tool", .parts (ps.map truncatePart)⟩ ∧
      (ps.map truncatePart)[j]? = some part) ∧
    (truncateDeep .null = .null) ∧
    (∀ b, truncateDeep (.bool b) = .bool b) ∧
    (∀ q, truncateDeep (.num q) = .num q) := by
  have huntouched : ∀ part : ToolPart, part.toolName.getD "" ∉ TOOLS_TO_TRUNCATE →
      truncatePart part = part := by
    intro part h
    rw [truncatePart_eq, if_neg (by simpa using h)]
  refine ⟨?_, huntouched, ?_, rfl, fun _ => rfl, fun _ => rfl⟩
  · intro messages i msg hm hrole
    unfold truncateHistory
    rw [List.getElem?_map, hm]
    simp only [Option.map_some']
    congr 1
    unfold truncateMessage
    rw [if_neg hrole]
  · intro messages i ps j part hm hp hname
    constructor
    · unfold truncateHistory
      rw [List.getElem?_map, hm]
      simp only [Option.map_some']
      rw [truncateMessage_tool_parts]
    · rw [List.getElem?_map, hp]
      simp only [Option.map_some']
      congr 1
      exact huntouched part hname

/-- Witness for C10 at concrete inputs: a user message is untouched, and a
context-tool part inside a `tool` message is untouched. -/
theorem truncateHistory_frame_witness :
    (truncateHistory [⟨"user", .text "hi"⟩])[0]? = some ⟨"user", .text "hi"⟩ ∧
    truncatePart ⟨some "getDatasetContext", .str "schema", []⟩
      = ⟨some "getDatasetContext", .str "schema", []⟩ ∧
    (truncateHistory [⟨"tool", .parts [⟨some "getTableDetails", .str "cols", []⟩]⟩])[0]?
      = some ⟨"tool", .parts ([⟨some "getTableDetails", .str "cols", []⟩].map truncatePart)⟩ :=
  ⟨truncateHistory_frame.1 [⟨"user", .text "hi"⟩] 0 ⟨"user", .text "hi"⟩ (by decide)
      (by decide),
    truncateHistory_frame.2.1 ⟨some "getDatasetContext", .str "schema", []⟩ (by decide),
    (truncateHistory_frame.2.2.1 [⟨"tool", .parts [⟨some "getTableDetails", .str "cols", []⟩]⟩]
      0 [⟨some "getTableDetails", .str "cols", []⟩] 0 ⟨some "getTableDetails", .str "cols", []⟩
      (by decide) (by decide) (by decide)).1⟩

/-! ### Lemmas about trace capture -/

theorem mem_stepRecords {rec : ToolCallRecord} {step : RawStep} {i : Nat}
    (h : rec ∈ stepRecords step i) :
    ∃ j call, (step.toolCalls.getD [])[j]? = some call ∧
      rec = { toolName := call.toolName,
              input := jsOrElse ((toolResultAt step j).bind RawToolResult.input) call.args,
              output := jsOrElse ((toolResultAt step j).bind RawToolResult.output) JsonValue.null,
              stepNumber := i + 1 } := by
  unfold stepRecords at h
  rw [List.mem_map] at h
  obtain ⟨⟨j, call⟩, hmem, heq⟩ := h
  have hj := List.mem_enum hmem
  refine ⟨j, call, ?_, heq.symm⟩
  rw [List.getElem?_eq_getElem hj.1]
  exact congrArg some hj.2.symm

theorem mem_captureTrace {steps : List RawStep} {rec : ToolCallRecord}
    (h : rec ∈ captureTrace steps) :
    ∃ i step, (steps.filter hasToolCalls)[i]? = some step ∧ rec ∈ stepRecords step i := by
  unfold captureTrace at h
  rw [List.mem_flatten] at h
  obtain ⟨l, hl, hrl⟩ := h
  rw [List.mem_map] at hl
  obtain ⟨⟨i, step⟩, hmem, rfl⟩ := hl
  have hj := List.mem_enum hmem
  refine ⟨i, step, ?_, hrl⟩
  rw [List.getElem?_eq_getElem hj.1]
  exact congrArg some hj.2.symm

/-! ### Claim C1: positional pairing of inputs and outputs

The claim's own words are formalised by `specRecordedInput` and
`specRecordedOutput` (input/output is the reported value whenever the field is
present); the code uses JavaScript `||`, formalised by `jsOrElse`, which also
discards present-but-falsy values.  `specCaptureTrace` is the claim-mandated
capture and differs from `captureTrace` exactly on falsy reported values. -/

/-- C1 as stated by the spec: the recorded input is the tool's reported
resolved input whenever it is present, otherwise the requested arguments. -/
def specRecordedInput (resolvedInput : Option JsonValue) (args : JsonValue) : JsonValue :=
  match resolvedInput with
  | some v => v
  | none => args

/-- C1 as stated by the spec: the recorded output is the reported result
value whenever it is available, otherwise `null` (never `undefined`). -/
def specRecordedOutput (reportedOutput : Option JsonValue) : JsonValue :=
  match reportedOutput with
  | some v => v
  | none => JsonValue.null

def specStepRecords (step : RawStep) (stepIndex : Nat) : List ToolCallRecord :=
  (step.toolCalls.getD []).enum.map (fun ic =>
    { toolName := ic.2.toolName
      input := specRecordedInput ((toolResultAt step ic.1).bind RawToolResult.input) ic.2.args
      output := specRecordedOutput ((toolResultAt step ic.1).bind RawToolResult.output)
      stepNumber := stepIndex + 1 })

def specCaptureTrace (steps : List RawStep) : List ToolCallRecord :=
  ((steps.filter hasToolCalls).enum.map (fun istep => specStepRecords istep.2 istep.1)).flatten

/-- A raw step whose single call reports a present but falsy output value. -/
def c1Step : RawStep :=
  { toolCalls := some [⟨"queryVCData", .obj [("sql", .str "SELECT 1")]⟩]
    toolResults := some [⟨none, some (.bool false)⟩] }

/-- Counterexample to C1 as stated: the raw step's sole tool result carries
the available output value `false`, yet the captured record's output is
`null`, so the recorded trace differs from the spec-mandated one. -/
theorem captureTrace_C1_counterexample :
    ((c1Step.toolResults.getD [])[0]?).bind RawToolResult.output = some (.bool false) ∧
    (captureTrace [c1Step]).map ToolCallRecord.output = [JsonValue.null] ∧
    (specCaptureTrace [c1Step]).map ToolCallRecord.output = [JsonValue.bool false] ∧
    captureTrace [c1Step] ≠ specCaptureTrace [c1Step] := by
  refine ⟨rfl, rfl, rfl, ?_⟩
  decide

/-- C1 amended: the recorded input is the reported resolved input whenever it
is present and truthy, otherwise the requested arguments. -/
def amendedRecordedInput (resolvedInput : Option JsonValue) (args : JsonValue) : JsonValue :=
  match resolvedInput with
  | some v => if jsTruthy v then v else args
  | none => args

/-- C1 amended: the recorded output is the reported result value whenever it
is present and truthy, otherwise `null` (never `undefined`). -/
def amendedRecordedOutput (reportedOutput : Option JsonValue) : JsonValue :=
  match reportedOutput with
  | some v => if jsTruthy v then v else JsonValue.null
  | none => JsonValue.null

theorem jsOrElse_eq_amendedInput (o : Option JsonValue) (fb : JsonValue) :
    jsOrElse o fb = amendedRecordedInput o fb := by
  cases o <;> rfl

theorem jsOrElse_eq_amendedOutput (o : Option JsonValue) :
    jsOrElse o JsonValue.null = amendedRecordedOutput o := by
  cases o <;> rfl

/-- Claim C1 (amended): every Tool Call Record of a captured turn pairs with
a same-index raw result of its step: its input is the reported resolved input
when present and truthy, falling back to the requested arguments, and its
output is the same-index reported output value when present and truthy, and
`null` otherwise — never `undefined`. -/
theorem captureTrace_pairing (steps : List RawStep) (rec : ToolCallRecord)
    (h : rec ∈ captureTrace steps) :
    ∃ step j call, step ∈ steps ∧ hasToolCalls step = true ∧
      (step.toolCalls.getD [])[j]? = some call ∧
      rec.toolName = call.toolName ∧
      rec.input = amendedRecordedInput ((toolResultAt step j).bind RawToolResult.input) call.args ∧
      rec.output = amendedRecordedOutput ((toolResultAt step j).bind RawToolResult.output) := by
  obtain ⟨i, step, hstep, hmem⟩ := mem_captureTrace h
  obtain ⟨j, call, hcall, rfl⟩ := mem_stepRecords hmem
  have hstep2 : step ∈ steps.filter hasToolCalls := List.getElem?_mem hstep
  rw [List.mem_filter] at hstep2
  exact ⟨step, j, call, hstep2.1, hstep2.2, hcall, rfl,
    jsOrElse_eq_amendedInput _ _, jsOrElse_eq_amendedOutput _⟩

/-- A raw step whose single call reports a truthy resolved input and output. -/
def c1WitnessStep : RawStep :=
  { toolCalls := some [⟨"queryVCData", .obj [("sql", .str "SELECT 1")]⟩]
    toolResults := some [⟨some (.obj [("sql", .str "SELECT 1 LIMIT 5")]), some (.str "ok")⟩] }

/-- Witness for the amended C1 at a concrete turn. -/
theorem captureTrace_pairing_witness :
    (⟨"queryVCData", .obj [("sql", .str "SELECT 1 LIMIT 5")], .str "ok", 1⟩ : ToolCallRecord)
        ∈ captureTrace [c1WitnessStep] ∧
    ∃ step j call, step ∈ [c1WitnessStep] ∧ hasToolCalls step = true ∧
      (step.toolCalls.getD [])[j]? = some call ∧
      (⟨"queryVCData", .obj [("sql", .str "SELECT 1 LIMIT 5")], .str "ok", 1⟩
          : ToolCallRecord).toolName = call.toolName ∧
      (⟨"queryVCData", .obj [("sql", .str "SELECT 1 LIMIT 5")], .str "ok", 1⟩
          : ToolCallRecord).input
        = amendedRecordedInput ((toolResultAt step j).bind RawToolResult.input) call.args ∧
      (⟨"queryVCData", .obj [("sql", .str "SELECT 1 LIMIT 5")], .str "ok", 1⟩
          : ToolCallRecord).output
        = amendedRecordedOutput ((toolResultAt step j).bind RawToolResult.output) :=
  ⟨by decide, captureTrace_pairing [c1WitnessStep] _ (by decide)⟩

/-! ### Claim C9: the meaning of `stepNumber` -/

/-- C9 as stated by the spec: a record's `stepNumber` is the 1-based index of
the raw reasoning step of the turn at which the invocation occurred (so the
raw step at that index must contain a call with the record's tool name). -/
def stepNumberMatchesRawIndex (steps : List RawStep) (rec : ToolCallRecord) : Bool :=
  match steps[rec.stepNumber - 1]? with
  | some step => ((step.toolCalls.getD []).map RawToolCall.toolName).contains rec.toolName
  | none => false

/-- A raw step that performed no tool calls. -/
def c9Step0 : RawStep := ⟨none, none⟩

/-- A raw step with a single tool call. -/
def c9Step1 : RawStep := ⟨some [⟨"queryVCData", .str "a"⟩], some [⟨none, some (.str "out")⟩]⟩

/-- Counterexample to C9 as stated: when the first reasoning step of a turn
performs no tool calls, the call made at raw step 2 is recorded with
`stepNumber = 1` (its index among tool-calling steps), not 2 — raw step 1
contains no invocation at all. -/
theorem captureTrace_C9_counterexample :
    (captureTrace [c9Step0, c9Step1]).map ToolCallRecord.stepNumber = [1] ∧
    (captureTrace [c9Step0, c9Step1]).all (stepNumberMatchesRawIndex [c9Step0, c9Step1])
      = false := by
  refine ⟨rfl, ?_⟩
  decide

/-- Claim C9 (amended): a record's `stepNumber` is the 1-based index of its
originating step within the subsequence of the turn's raw steps that contain
at least one tool call (earlier call-free steps are skipped by the filter and
do not advance the numbering). -/
theorem captureTrace_stepNumber (steps : List RawStep) (rec : ToolCallRecord)
    (h : rec ∈ captureTrace steps) :
    1 ≤ rec.stepNumber ∧
    ∃ step, (steps.filter hasToolCalls)[rec.stepNumber - 1]? = some step ∧
      rec ∈ stepRecords step (rec.stepNumber - 1) := by
  obtain ⟨i, step, hstep, hmem⟩ := mem_captureTrace h
  have hnum : rec.stepNumber = i + 1 := by
    obtain ⟨j, call, hcall, rfl⟩ := mem_stepRecords hmem
    rfl
  rw [hnum]
  simp only [Nat.add_sub_cancel]
  exact ⟨by omega, step, hstep, hmem⟩

/-- Witness for the amended C9 at a concrete two-step turn. -/
theorem captureTrace_stepNumber_witness :
    (⟨"queryVCData", .str "a", .str "out", 1⟩ : ToolCallRecord)
        ∈ captureTrace [c9Step0, c9Step1] ∧
    1 ≤ (⟨"queryVCData", .str "a", .str "out", 1⟩ : ToolCallRecord).stepNumber ∧
    ∃ step, ([c9Step0, c9Step1].filter hasToolCalls)[
        (⟨"queryVCData", .str "a", .str "out", 1⟩ : ToolCallRecord).stepNumber - 1]?
        = some step ∧
      (⟨"queryVCData", .str "a", .str "out", 1⟩ : ToolCallRecord)
        ∈ stepRecords step
          ((⟨"queryVCData", .str "a", .str "out", 1⟩ : ToolCallRecord).stepNumber - 1) :=
  ⟨by decide, captureTrace_stepNumber [c9Step0, c9Step1] _ (by decide)⟩

/-! ### Claim C6: error propagation in `chat` -/

/-- Claim C6: if the reasoning-session invocation inside `chat` throws, the
exception propagates to the caller, the user message remains appended as the
last entry of the durable history, and no new assistant or tool messages (and
no new turn trace) are appended. -/
theorem chat_error_semantics (st : AgentState) (userMessage : String) (e : String)
    (h : st.agentReady = true) :
    (chat st userMessage (.error e)).2 = .error e ∧
    (chat st userMessage (.error e)).1.messages
      = st.messages ++ [{ role := "user", content := .text userMessage }] ∧
    (chat st userMessage (.error e)).1.trace = st.trace := by
  simp [chat, h]

/-- Witness for C6 at a concrete ready state. -/
theorem chat_error_semantics_witness :
    (chat ⟨true, [], []⟩ "q" (.error "boom")).2 = .error "boom" ∧
    (chat ⟨true, [], []⟩ "q" (.error "boom")).1.messages
      = (⟨true, [], []⟩ : AgentState).messages ++ [{ role := "user", content := .text "q" }] ∧
    (chat ⟨true, [], []⟩ "q" (.error "boom")).1.trace = (⟨true, [], []⟩ : AgentState).trace :=
  chat_error_semantics ⟨true, [], []⟩ "q" "boom" rfl

/-! ### Claim C7: purity of trace classification -/

theorem length_filter_of_map {α β : Type} (f : α → β) (p : β → Bool) (l : List α) :
    ((l.map f).filter p).length = (l.filter (fun a => p (f a))).length := by
  induction l with
  | nil => rfl
  | cons a tl ih =>
    by_cases h : p (f a) = true <;> simp [List.filter_cons, h, ih]

/-- Claim C7: `isContextTool` is a pure function of the tool name — true
exactly for members of the fixed context set, regardless of the call's input
or output — and `totalToolCalls` counts exactly the non-context records. -/
theorem processAgentTrace_classification :
    (∀ toolCall : ToolCallRecord,
      (classifyRecord toolCall).isContextTool = CONTEXT_TOOLS.contains toolCall.toolName) ∧
    (∀ agentTrace : List ToolCallRecord,
      (processAgentTrace agentTrace).toolCalls = agentTrace.map classifyRecord) ∧
    (∀ agentTrace : List ToolCallRecord,
      totalToolCalls agentTrace
        = (agentTrace.filter (fun tc => !(CONTEXT_TOOLS.contains tc.toolName))).length) ∧
    (CONTEXT_TOOLS.contains "getDatasetContext" = true ∧
      CONTEXT_TOOLS.contains "listDatasetTables" = true ∧
      CONTEXT_TOOLS.contains "getTableDetails" = true ∧
      CONTEXT_TOOLS.contains "queryVCData" = false) := by
  refine ⟨fun _ => rfl, fun _ => rfl, fun agentTrace => ?_, by decide, by decide, by decide,
    by decide⟩
  unfold totalToolCalls workToolCalls processAgentTrace
  exact length_filter_of_map classifyRecord (fun tc => !tc.isContextTool) agentTrace

/-! ### Claim C8: aggregate correctness of `buildUnifiedResults` -/

theorem grade_partition (results : List UnifiedTestResult) :
    (results.filter (fun r => decide (r.grade = Grade.pass))).length
      + (results.filter (fun r => decide (r.grade = Grade.fail))).length
      = results.length := by
  induction results with
  | nil => rfl
  | cons r tl ih =>
    cases hg : r.grade <;> simp [List.filter_cons, hg] <;> omega

/-- Claim C8: for N Unified Test Results of which P carry grade `pass`, the
Run Metadata reports `total_tests = N`, `passed = P`, `failed = N - P`, and
`pass_rate = 100 * P / N`, with `pass_rate = 0` (and no division error) when
`N = 0`. -/
theorem buildUnifiedResults_aggregate (results : List UnifiedTestResult) :
    (buildUnifiedResults results).metadata.total_tests = results.length ∧
    (buildUnifiedResults results).metadata.passed
      = (results.filter (fun r => decide (r.grade = Grade.pass))).length ∧
    (buildUnifiedResults results).metadata.failed
      = results.length - (results.filter (fun r => decide (r.grade = Grade.pass))).length ∧
    (buildUnifiedResults results).metadata.pass_rate
      = 100 * ((results.filter (fun r => decide (r.grade = Grade.pass))).length : ℚ)
          / (results.length : ℚ) ∧
    (buildUnifiedResults []).metadata.pass_rate = 0 := by
  refine ⟨rfl, rfl, ?_, ?_, rfl⟩
  · have hp := grade_partition results
    have hle : (results.filter (fun r => decide (r.grade = Grade.pass))).length
        ≤ results.length := List.length_filter_le _ _
    show (results.filter (fun r => decide (r.grade = Grade.fail))).length = _
    omega
  · show (if results.length > 0 then
        (((results.filter (fun r => decide (r.grade = Grade.pass))).length : ℚ)
          / (results.length : ℚ)) * 100
      else 0)
      = 100 * ((results.filter (fun r => decide (r.grade = Grade.pass))).length : ℚ)
          / (results.length : ℚ)
    by_cases hN : results.length > 0
    · rw [if_pos hN]
      ring
    · rw [if_neg hN]
      have h0 : results.length = 0 := by omega
      rw [h0]
      simp

/-! ### Claim C4: invalid judge JSON is a hard error -/

/-- Claim C4: for every judge-model output whose text, after stripping
markdown code fences (or raw-trimming when no fences are present), is not
valid JSON, `evaluateHolistically` raises an error rather than returning any
grade; the parse failure is never coerced into a verdict by the evaluator. -/
theorem evaluateHolistically_parse_failure (params : EvalParams) (judgeText : String)
    (h : parseJson (extractJSON judgeText) = none) :
    evaluateHolistically params judgeText = .error "SyntaxError: Unexpected token in JSON" ∧
    ∀ ev : HolisticEvaluation, evaluateHolistically params judgeText ≠ .ok ev := by
  have e : evaluateHolistically params judgeText
      = .error "SyntaxError: Unexpected token in JSON" := by
    simp only [evaluateHolistically]
    rw [h]
  exact ⟨e, fun ev hev => by rw [e] at hev; exact Except.noConfusion hev⟩

/-- Witness for C4: a reply that is not JSON after raw-trimming. -/
theorem evaluateHolistically_parse_failure_witness :
    parseJson (extractJSON "this is not JSON") = none ∧
    evaluateHolistically ⟨"q", "p", "a", 2, "ans", 1, [], []⟩ "this is not JSON"
      = .error "SyntaxError: Unexpected token in JSON" :=
  ⟨rfl, (evaluateHolistically_parse_failure ⟨"q", "p", "a", 2, "ans", 1, [], []⟩
    "this is not JSON" rfl).1⟩

/-! ### Claim C5: the returned grade is not validated -/

def c5Params : EvalParams :=
  ⟨"q", "path", "answer", 2, "agent answer", 1, ["queryVCData"], ["SELECT 1"]⟩

/-- A syntactically valid judge reply whose grade is neither pass nor fail. -/
def c5JudgeText : String := "\x7b\"grade\": \"maybe\", \"reasoning\": \"unsure\"\x7d"

/-- Counterexample to C5 as stated: a judge reply that parses as valid JSON
but carries the grade string `maybe` is returned verbatim by
`evaluateHolistically` — the grade is not one of `pass`/`fail`. -/
theorem evaluateHolistically_C5_counterexample :
    (parseJson (extractJSON c5JudgeText)).isSome = true ∧
    evaluateHolistically c5Params c5JudgeText
      = .ok ⟨some (.str "maybe"), some (.str "unsure")⟩ ∧
    some (JsonValue.str "maybe") ≠ some (JsonValue.str "pass") ∧
    some (JsonValue.str "maybe") ≠ some (JsonValue.str "fail") := by
  refine ⟨rfl, rfl, by decide, by decide⟩

theorem evaluateHolistically_ok_of_parse (params : EvalParams) (judgeText : String)
    (j : JsonValue) (h : parseJson (extractJSON judgeText) = some j)
    (hnn : j ≠ JsonValue.null) :
    evaluateHolistically params judgeText
      = .ok { grade := jsGet j "grade", reasoning := jsGet j "reasoning" } := by
  simp only [evaluateHolistically]
  rw [h]
  cases j with
  | null => exact absurd rfl hnn
  | bool b => rfl
  | num q => rfl
  | str s => rfl
  | arr items => rfl
  | obj fields => rfl

/-- Claim C5 (amended): for every judge-model output that parses (after
fence-stripping) to a non-null JSON value, the grade returned by
`evaluateHolistically` is exactly the parsed value's `grade` property,
unvalidated — so it is `pass` or `fail` precisely when the judge's grade
field holds one of those strings, and may be any other value otherwise. -/
theorem evaluateHolistically_grade_passthrough (params : EvalParams) (judgeText : String)
    (j : JsonValue) (h : parseJson (extractJSON judgeText) = some j)
    (hnn : j ≠ JsonValue.null) :
    evaluateHolistically params judgeText
      = .ok { grade := jsGet j "grade", reasoning := jsGet j "reasoning" } :=
  evaluateHolistically_ok_of_parse params judgeText j h hnn

/-- A conforming judge reply, used as witness input. -/
def c5WitnessText : String := "\x7b\"grade\": \"pass\", \"reasoning\": \"good\"\x7d"

/-- Witness for the amended C5: with a conforming judge reply the returned
grade is exactly the judge's grade field. -/
theorem evaluateHolistically_grade_passthrough_witness :
    evaluateHolistically c5Params c5WitnessText
      = .ok { grade := jsGet (.obj [("grade", .str "pass"), ("reasoning", .str "good")]) "grade",
              reasoning := jsGet (.obj [("grade", .str "pass"), ("reasoning", .str "good")])
                "reasoning" } :=
  evaluateHolistically_grade_passthrough c5Params c5WitnessText
    (.obj [("grade", .str "pass"), ("reasoning", .str "good")]) rfl (by decide)

/-! ### Claim C3: the tool-call budget is not enforced by the evaluator -/

/-- An evaluation input exceeding the declared budget by 8 (> tolerance 2). -/
def c3Params : EvalParams :=
  ⟨"q", "path", "answer", 2, "agent answer", 10, ["queryVCData"], ["SELECT 1"]⟩

/-- A judge reply grading `pass`. -/
def c3PassText : String := "\x7b\"grade\": \"pass\", \"reasoning\": \"ok\"\x7d"

/-- Counterexample to C3 as stated: with `toolCallsUsed = 10` and
`maxToolCalls = 2` (so the budget is exceeded by more than the tolerance of
2), the Holistic Evaluator still returns grade `pass` when the judge model
replies `pass` — the code never compares `toolCallsUsed` with
`maxToolCalls + 2` and cannot force a `fail`. -/
theorem evaluateHolistically_C3_counterexample :
    c3Params.toolCallsUsed > c3Params.maxToolCalls + 2 ∧
    evaluateHolistically c3Params c3PassText
      = .ok ⟨some (.str "pass"), some (.str "ok")⟩ ∧
    some (JsonValue.str "pass") ≠ some (JsonValue.str "fail") := by
  refine ⟨by decide, rfl, by decide⟩

/-- Claim C3 (amended): exceeding the declared budget by more than the
tolerance of 2 does not mechanically yield grade `fail`: even then the
evaluator returns exactly the judge model's reported grade (the `+2` rule
reaches the verdict only as rubric prompt text interpreted by the judge);
and an input at exactly `maxToolCalls + 2` can be graded `pass`. -/
theorem evaluateHolistically_budget_delegation :
    (∀ (params : EvalParams) (judgeText : String) (j : JsonValue),
      params.toolCallsUsed > params.maxToolCalls + 2 →
      parseJson (extractJSON judgeText) = some j → j ≠ JsonValue.null →
      evaluateHolistically params judgeText
        = .ok { grade := jsGet j "grade", reasoning := jsGet j "reasoning" }) ∧
    (∃ (params : EvalParams) (judgeText : String),
      params.toolCallsUsed = params.maxToolCalls + 2 ∧
      evaluateHolistically params judgeText
        = .ok { grade := some (.str "pass"), reasoning := some (.str "ok") }) := by
  constructor
  · intro params judgeText j _hbudget h hnn
    exact evaluateHolistically_ok_of_parse params judgeText j h hnn
  · refine ⟨⟨"q", "path", "answer", 2, "agent answer", 4, ["queryVCData"], ["SELECT 1"]⟩,
      c3PassText, by decide, rfl⟩

/-- Witness for the amended C3: an over-budget evaluation whose judge reply
grades `fail` is returned verbatim. -/
theorem evaluateHolistically_budget_delegation_witness :
    c3Params.toolCallsUsed > c3Params.maxToolCalls + 2 ∧
    evaluateHolistically c3Params "\x7b\"grade\": \"fail\", \"reasoning\": \"over budget\"\x7d"
      = .ok { grade := jsGet (.obj [("grade", .str "fail"), ("reasoning", .str "over budget")])
                "grade",
              reasoning := jsGet (.obj [("grade", .str "fail"),
                ("reasoning", .str "over budget")]) "reasoning" } :=
  ⟨by decide,
    evaluateHolistically_budget_delegation.1 c3Params
      "\x7b\"grade\": \"fail\", \"reasoning\": \"over budget\"\x7d"
      (.obj [("grade", .str "fail"), ("reasoning", .str "over budget")])
      (by decide) rfl (by decide)⟩
